import Mathlib

/-!
Shallow embedding of the core of `ip_diffim` (`src/ImageSubtract.cc`):
the delta-function kernel basis, the footprint selector, the PSF-matching
kernel solver's accumulation / solve / translation stages, the
convolve-and-subtract difference operator, and the masked-image statistics
engine.  Pixel values (C++ `double`) are modelled as rationals; the C
library `sqrt` is modelled as an explicit function parameter `sqrtFn`;
not-a-number values are modelled with `Option` (`none` = NaN); C++
exceptions are modelled with `Except`.
-/

namespace Diffim

/-! ## Statistics engine: `calculateMaskedImageStatistics`
    (`ImageSubtract.cc` lines 718-801). -/

/-- One pixel of an `lsst::afw::image::MaskedImage`: intensity, variance and
mask planes. -/
structure MaskedPixel where
  image : ℚ
  variance : ℚ
  mask : ℕ
deriving DecidableEq

/-- The row-scan accumulation shared by both overloads of
`calculateMaskedImageStatistics`: over pixels selected by `keep`,
accumulate `xSum += image / sqrt(variance)`, `x2Sum += image*image/variance`
and `nGoodPixels += 1`.  Returns `(xSum, x2Sum, nGoodPixels)`. -/
def statsAccum (sqrtFn : ℚ → ℚ) (keep : MaskedPixel → Bool)
    (pixels : List MaskedPixel) : ℚ × ℚ × ℕ :=
  pixels.foldl
    (fun acc ptr =>
      if keep ptr then
        (acc.1 + ptr.image / sqrtFn ptr.variance,
         acc.2.1 + ptr.image * ptr.image / ptr.variance,
         acc.2.2 + 1)
      else acc)
    (0, 0, 0)

/-- The tail of both overloads: `mean = xSum / nGoodPixels` when
`nGoodPixels > 0`, else NaN; `variance = (x2Sum/n - mean*mean) * (n / (n-1))`
when `nGoodPixels > 1`, else NaN.  NOTE: in the C++ source the factor
`nGoodPixels / (nGoodPixels - 1)` divides two `int`s, so it is an integer
division; this is reproduced here as `Nat` division `n / (n - 1)` before the
cast to `ℚ`. -/
def statsFromSums (xSum x2Sum : ℚ) (n : ℕ) : Option ℚ × Option ℚ :=
  (if n > 0 then some (xSum / n) else none,
   if n > 1 then
     some ((x2Sum / n - (xSum / n) * (xSum / n)) * ((n / (n - 1) : ℕ) : ℚ))
   else none)

/-- `calculateMaskedImageStatistics` overload with an explicit
`badPixelMask`: a pixel is kept when `(ptr.mask() & badPixelMask) == 0`
(lines 718-754).  Returns `(nGoodPixels, mean, variance)`. -/
def calculateMaskedImageStatisticsMasked (sqrtFn : ℚ → ℚ)
    (pixels : List MaskedPixel) (badPixelMask : ℕ) : ℕ × Option ℚ × Option ℚ :=
  let acc := statsAccum sqrtFn (fun ptr => ptr.mask &&& badPixelMask == 0) pixels
  let ms := statsFromSums acc.1 acc.2.1 acc.2.2
  (acc.2.2, ms.1, ms.2)

/-- `calculateMaskedImageStatistics` overload without a mask argument: a
pixel is kept when `ptr.mask() == 0` (lines 766-801).
Returns `(nGoodPixels, mean, variance)`. -/
def calculateMaskedImageStatisticsNoMask (sqrtFn : ℚ → ℚ)
    (pixels : List MaskedPixel) : ℕ × Option ℚ × Option ℚ :=
  let acc := statsAccum sqrtFn (fun ptr => ptr.mask == 0) pixels
  let ms := statsFromSums acc.1 acc.2.1 acc.2.2
  (acc.2.2, ms.1, ms.2)

/-- The unbiased sample variance of the normalized residuals exactly as the
spec words it: `(Σv²/var / count − mean²) · count/(count−1)` with an exact
rational ratio `count/(count−1)`.  Stated from the spec for comparison with
the source's `statsFromSums`. -/
def specUnbiasedVariance (x2Sum mean : ℚ) (n : ℕ) : ℚ :=
  (x2Sum / n - mean * mean) * ((n : ℚ) / ((n : ℚ) - 1))

/-! ## Kernel basis: `generateDeltaFunctionKernelSet`
    (`ImageSubtract.cc` lines 100-119). -/

/-- Modelled from the spec: the external `afw::math::DeltaFunctionKernel`
constructed as `DeltaFunctionKernel(width, height, Point(col, row))` is a
`width × height` kernel with unit weight at `(col, row)`, zero elsewhere,
and anchor at `(col, row)` (spec section 4.1). -/
structure DeltaFunctionKernel where
  width : ℕ
  height : ℕ
  pixelX : ℕ
  pixelY : ℕ
deriving DecidableEq

/-- Modelled from the spec: the delta-function kernel's stencil weight,
`1` at its pixel and `0` elsewhere. -/
def DeltaFunctionKernel.weight (k : DeltaFunctionKernel) (x y : ℕ) : ℚ :=
  if x = k.pixelX ∧ y = k.pixelY then 1 else 0

/-- Modelled from the spec: the delta-function kernel's anchor is its unit
pixel `(col, row)`. -/
def DeltaFunctionKernel.anchor (k : DeltaFunctionKernel) : ℕ × ℕ :=
  (k.pixelX, k.pixelY)

/-- The nested loop body of `generateDeltaFunctionKernelSet`: for
`row = 0 .. height-1`, for `col = 0 .. width-1`, push
`DeltaFunctionKernel(width, height, Point(col, row))`. -/
def deltaBasisList (width height : ℕ) : List DeltaFunctionKernel :=
  (List.range height).flatMap fun row =>
    (List.range width).map fun col =>
      ⟨width, height, col, row⟩

/-- `generateDeltaFunctionKernelSet` (lines 100-119): throws when
`width < 1 || height < 1`, otherwise returns the row-major list of
delta-function kernels. -/
def generateDeltaFunctionKernelSet (width height : ℕ) :
    Except String (List DeltaFunctionKernel) :=
  if width < 1 ∨ height < 1 then
    Except.error "nRows and nCols must be positive"
  else
    Except.ok (deltaBasisList width height)

/-! ## Difference operator: `convolveAndSubtract` and `addFunctionToImage`
    (`ImageSubtract.cc` lines 157-293 and 808-834).

    Only the intensity plane is modelled (the claims are about intensities);
    a plane is a function from `(col, row)` to a rational.  The convolution
    primitive (`afw::math::convolve` / `convolveLinear`) is an external
    collaborator, so the two kernel overload pairs are modelled uniformly by
    taking the convolved plane it produces as an argument. -/

/-- `addFunctionToImage` (lines 808-834): adds
`function(positionToIndex(col), positionToIndex(row))` to every pixel of the
image plane (`positionToIndex` maps index `i` to position `i`). -/
def addFunctionToImage (img : ℕ × ℕ → ℚ) (f : ℚ → ℚ → ℚ) : ℕ × ℕ → ℚ :=
  fun p => img p + f (p.1 : ℚ) (p.2 : ℚ)

/-- `convolveAndSubtract` with a scalar background (lines 157-184, and
lines 194-220 for the linear-combination kernel overload): starting from
the convolved plane, `+= background`, `-= imageToNotConvolve`, `*= -1.0`. -/
def convolveAndSubtractConst (convolved imageToNotConvolve : ℕ × ℕ → ℚ)
    (background : ℚ) : ℕ × ℕ → ℚ :=
  let step1 := fun p => convolved p + background
  let step2 := fun p => step1 p - imageToNotConvolve p
  fun p => step2 p * (-1)

/-- `convolveAndSubtract` with a spatially varying background function
(lines 230-257, and lines 267-293 for the linear-combination kernel
overload): `addFunctionToImage`, `-= imageToNotConvolve`, `*= -1.0`. -/
def convolveAndSubtractFn (convolved imageToNotConvolve : ℕ × ℕ → ℚ)
    (backgroundFunction : ℚ → ℚ → ℚ) : ℕ × ℕ → ℚ :=
  let step1 := addFunctionToImage convolved backgroundFunction
  let step2 := fun p => step1 p - imageToNotConvolve p
  fun p => step2 p * (-1)

/-! ## Kernel solver accumulation window
    (`ImageSubtract.cc` lines 511-526). -/

/-- `startCol`/`startRow` of the accumulation window (lines 511-512): the
first accumulated index on an axis is the (first) basis kernel's anchor
offset on that axis. -/
def windowStart (ctr : ℕ) : ℕ := ctr

/-- `endCol`/`endRow` of the accumulation window (lines 513-514):
`size - (kSize - ctr) + 1`, the loop bound `col < endCol` (exclusive). -/
def windowEnd (size kSize ctr : ℕ) : ℕ := size - (kSize - ctr) + 1

/-- Whether a convolution output pixel at index `p` on an axis of length
`size`, for a kernel of extent `kSize` anchored at `ctr`, reads only
in-bounds source pixels: the output at `p` is a weighted sum of source
indices `p - ctr + t` for `t = 0 .. kSize-1`, so it needs `ctr ≤ p` and
every tap below `size`. -/
def convReadsInBounds (size kSize ctr p : ℕ) : Prop :=
  ctr ≤ p ∧ ∀ t, t < kSize → p - ctr + t < size

instance (size kSize ctr p : ℕ) : Decidable (convReadsInBounds size kSize ctr p) := by
  unfold convReadsInBounds
  infer_instance

/-! ## Kernel solver accumulation of the normal equations
    (`ImageSubtract.cc` lines 524-600).

    The matrix `M` and vector `B` are modelled as total functions (GSL
    matrices of size `p × p` and `p`, `p = nParameters = n + 1`); the three
    input planes are functions from `(col, row)`: `T` is the intensity plane
    of `imageToNotConvolve`, `V` the variance plane of the separately
    supplied `varianceImage`, and `C i` the intensity plane of the i-th
    convolved basis image. -/

abbrev GslMat := ℕ → ℕ → ℚ

abbrev GslVec := ℕ → ℚ

/-- `*gsl_matrix_ptr(M, i, j) += v`. -/
def updM (M : GslMat) (i j : ℕ) (v : ℚ) : GslMat :=
  fun a b => if a = i ∧ b = j then M a b + v else M a b

/-- `gsl_matrix_set(M, i, j, v)`. -/
def setM (M : GslMat) (i j : ℕ) (v : ℚ) : GslMat :=
  fun a b => if a = i ∧ b = j then v else M a b

/-- `*gsl_vector_ptr(B, i) += v`. -/
def updV (B : GslVec) (i : ℕ) (v : ℚ) : GslVec :=
  fun a => if a = i then B a + v else B a

/-- The `kidxi` iteration of the accumulation loop (lines 543-560):
`cdImagei = C kidxi`, then for `kidxj = kidxi .. n-1`
`M[kidxi][kidxj] += cdImagei · C kidxj · iVariance`, then
`B[kidxi] += ncImage · cdImagei · iVariance` and
`M[kidxi][nParameters-1] += cdImagei · iVariance` (with
`nParameters - 1 = n`). -/
def accumRowStep (n : ℕ) (ncImage iVariance : ℚ) (Cpt : ℕ → ℚ)
    (MB : GslMat × GslVec) (kidxi : ℕ) : GslMat × GslVec :=
  let cdImagei := Cpt kidxi
  let M1 := (List.range' kidxi (n - kidxi)).foldl
    (fun M kidxj => updM M kidxi kidxj (cdImagei * Cpt kidxj * iVariance))
    MB.1
  let B1 := updV MB.2 kidxi (ncImage * cdImagei * iVariance)
  let M2 := updM M1 kidxi n (cdImagei * iVariance)
  (M2, B1)

/-- The per-pixel body of the accumulation loop (lines 528-564) at pixel
`pt`, with `n = nKernelParameters`: `ncImage = T pt`,
`iVariance = 1 / V pt`, the `kidxi = 0 .. n-1` row iterations, and finally
`B[nParameters-1] += ncImage · iVariance` and
`M[nParameters-1][nParameters-1] += 1.0 · iVariance`. -/
def pixelStep (n : ℕ) (T V : ℕ × ℕ → ℚ) (C : ℕ → ℕ × ℕ → ℚ)
    (pt : ℕ × ℕ) (MB : GslMat × GslVec) : GslMat × GslVec :=
  let ncImage := T pt
  let iVariance := 1 / V pt
  let MB1 := (List.range n).foldl
    (accumRowStep n ncImage iVariance (fun i => C i pt)) MB
  (updM MB1.1 n n (1 * iVariance), updV MB1.2 n (ncImage * iVariance))

/-- The row-major list of accumulated pixels: `row = startRow .. endRow-1`,
`col = startCol .. endCol-1` (lines 524-526). -/
def windowPoints (startCol endCol startRow endRow : ℕ) : List (ℕ × ℕ) :=
  (List.range' startRow (endRow - startRow)).flatMap fun row =>
    (List.range' startCol (endCol - startCol)).map fun col => (col, row)

/-- The full accumulation scan: fold the per-pixel body over the window,
starting from the zeroed `M` and `B` (lines 456-457, `gsl_vector_set_zero`
and `gsl_matrix_set_zero`). -/
def normalEquationsScan (n : ℕ) (T V : ℕ × ℕ → ℚ) (C : ℕ → ℕ × ℕ → ℚ)
    (pts : List (ℕ × ℕ)) : GslMat × GslVec :=
  pts.foldl (fun MB pt => pixelStep n T V C pt MB)
    (fun _ _ => 0, fun _ => 0)

/-- The mirroring step (lines 596-600): for `kidxi = 0 .. p-1`, for
`kidxj = kidxi+1 .. p-1`, `gsl_matrix_set(M, kidxj, kidxi,
gsl_matrix_get(M, kidxi, kidxj))`. -/
def mirrorFill (p : ℕ) (M : GslMat) : GslMat :=
  (List.range p).foldl
    (fun M kidxi =>
      (List.range' (kidxi + 1) (p - (kidxi + 1))).foldl
        (fun M kidxj => setM M kidxj kidxi (M kidxi kidxj)) M)
    M

end Diffim

namespace Diffim

theorem statsAccum_count (sqrtFn : ℚ → ℚ) (keep : MaskedPixel → Bool)
    (pixels : List MaskedPixel) :
    (statsAccum sqrtFn keep pixels).2.2 = (pixels.filter keep).length := by
  suffices h : ∀ a b (n : ℕ),
      (pixels.foldl
        (fun acc ptr =>
          if keep ptr then
            (acc.1 + ptr.image / sqrtFn ptr.variance,
             acc.2.1 + ptr.image * ptr.image / ptr.variance,
             acc.2.2 + 1)
          else acc)
        (a, b, n)).2.2 = n + (pixels.filter keep).length by
    simpa [statsAccum] using h 0 0 0
  induction pixels with
  | nil => simp
  | cons p ps ih =>
    intro a b n
    by_cases hp : keep p
    · simp [hp, ih, List.filter_cons]
      omega
    · simp [hp, ih, List.filter_cons]

theorem length_filter_lt_of_mem_not {α : Type} {q : α → Bool} {l : List α}
    {x : α} (hx : x ∈ l) (hqx : q x = false) :
    (l.filter q).length < l.length := by
  induction l with
  | nil => cases hx
  | cons a as ih =>
    rcases List.mem_cons.mp hx with h | h
    · subst h
      simp only [List.filter_cons, hqx, List.length_cons]
      exact Nat.lt_succ_of_le (List.length_filter_le q as)
    · by_cases ha : q a
      · simpa [List.filter_cons, ha] using ih h
      · simp only [List.filter_cons, ha, Bool.false_eq_true, if_false,
          List.length_cons]
        exact Nat.lt_succ_of_lt (ih h)

theorem flatMap_range_map_length {α : Type} (f : ℕ → ℕ → α) (w h : ℕ) :
    ((List.range h).flatMap fun r => (List.range w).map (f r)).length = h * w := by
  induction h with
  | zero => simp
  | succ n ih =>
    rw [List.range_succ n, List.flatMap_append]
    simp only [List.length_append, ih]
    simp [Nat.succ_mul]

theorem flatMap_range_map_getElem {α : Type} (f : ℕ → ℕ → α) (w : ℕ) :
    ∀ h row col, row < h → col < w →
      ((List.range h).flatMap fun r => (List.range w).map (f r))[row * w + col]? =
        some (f row col) := by
  intro h
  induction h with
  | zero => intro row col hr _; omega
  | succ n ih =>
    intro row col hr hc
    rw [List.range_succ n, List.flatMap_append]
    by_cases hrn : row < n
    · rw [List.getElem?_append_left ?_]
      · exact ih row col hrn hc
      · rw [flatMap_range_map_length f w n]
        have h1 : (row + 1) * w ≤ n * w := Nat.mul_le_mul_right w (by omega)
        have h2 : row * w + col < (row + 1) * w := by
          rw [Nat.succ_mul]; omega
        omega
    · have hrow : row = n := by omega
      rw [hrow]
      rw [List.getElem?_append_right
        (by rw [flatMap_range_map_length f w n]; omega)]
      rw [flatMap_range_map_length f w n]
      simp only [List.flatMap_cons, List.flatMap_nil, List.append_nil,
        Nat.add_sub_cancel_left]
      rw [List.getElem?_map, List.getElem?_range hc]
      rfl

/-- Claim C6: for `width ≥ 1` and `height ≥ 1`,
`generateDeltaFunctionKernelSet` returns exactly `width*height` kernels, the
kernel at linear index `row*width + col` is the delta-function kernel at
pixel `(col, row)` with unit weight there, zero elsewhere, and anchor
`(col, row)`, and anchors cover every position exactly once (distinct
indices carry distinct anchors); for `width < 1` or `height < 1` it fails
with the domain error instead of returning. -/
theorem c6_delta_function_basis (width height : ℕ) :
    (1 ≤ width → 1 ≤ height →
      ∃ l, generateDeltaFunctionKernelSet width height = Except.ok l ∧
        l.length = width * height ∧
        (∀ row col, row < height → col < width →
          l[row * width + col]? = some ⟨width, height, col, row⟩) ∧
        (∀ row col, row < height → col < width →
          (⟨width, height, col, row⟩ : DeltaFunctionKernel).weight col row = 1 ∧
          (∀ x y, ¬(x = col ∧ y = row) →
            (⟨width, height, col, row⟩ : DeltaFunctionKernel).weight x y = 0) ∧
          (⟨width, height, col, row⟩ : DeltaFunctionKernel).anchor = (col, row)) ∧
        (∀ i j, i < width * height → j < width * height →
          (l[i]?).map DeltaFunctionKernel.anchor =
            (l[j]?).map DeltaFunctionKernel.anchor → i = j)) ∧
    (width < 1 ∨ height < 1 →
      generateDeltaFunctionKernelSet width height =
        Except.error "nRows and nCols must be positive") := by
  constructor
  · intro hw hh
    refine ⟨deltaBasisList width height, ?_, ?_, ?_, ?_, ?_⟩
    · simp only [generateDeltaFunctionKernelSet]
      rw [if_neg (by omega)]
    · rw [deltaBasisList, flatMap_range_map_length, Nat.mul_comm]
    · intro row col hr hc
      exact flatMap_range_map_getElem _ width height row col hr hc
    · intro row col _ _
      refine ⟨by simp [DeltaFunctionKernel.weight], ?_, rfl⟩
      intro x y hxy
      simp only [DeltaFunctionKernel.weight, ite_eq_right_iff]
      intro hmem
      exact absurd hmem hxy
    · intro i j hi hj hanchor
      have hwpos : 0 < width := hw
      have hcomm : width * height = height * width := Nat.mul_comm width height
      have hgi : (deltaBasisList width height)[i]? =
          some ⟨width, height, i % width, i / width⟩ := by
        have hdiv : i / width < height := by
          rw [Nat.div_lt_iff_lt_mul hwpos]; omega
        have hmod : i % width < width := Nat.mod_lt _ hwpos
        have := flatMap_range_map_getElem
          (fun row col => (⟨width, height, col, row⟩ : DeltaFunctionKernel))
          width height (i / width) (i % width) hdiv hmod
        rwa [Nat.mul_comm (i / width) width, Nat.div_add_mod] at this
      have hgj : (deltaBasisList width height)[j]? =
          some ⟨width, height, j % width, j / width⟩ := by
        have hdiv : j / width < height := by
          rw [Nat.div_lt_iff_lt_mul hwpos]; omega
        have hmod : j % width < width := Nat.mod_lt _ hwpos
        have := flatMap_range_map_getElem
          (fun row col => (⟨width, height, col, row⟩ : DeltaFunctionKernel))
          width height (j / width) (j % width) hdiv hmod
        rwa [Nat.mul_comm (j / width) width, Nat.div_add_mod] at this
      rw [hgi, hgj] at hanchor
      simp only [DeltaFunctionKernel.anchor, Option.map_some', Option.some_inj,
        Prod.mk.injEq] at hanchor
      obtain ⟨hm, hd⟩ := hanchor
      have h1 := Nat.div_add_mod i width
      have h2 := Nat.div_add_mod j width
      rw [hd, hm] at h1
      omega
  · intro hbad
    simp only [generateDeltaFunctionKernelSet]
    rw [if_pos hbad]

/-- Witness for C6 at `width = 2`, `height = 3` (and the error branch at
`width = 0`). -/
theorem c6_delta_function_basis_witness :
    (∃ l, generateDeltaFunctionKernelSet 2 3 = Except.ok l ∧
      l.length = 2 * 3 ∧
      (∀ row col, row < 3 → col < 2 →
        l[row * 2 + col]? = some ⟨2, 3, col, row⟩) ∧
      (∀ row col, row < 3 → col < 2 →
        (⟨2, 3, col, row⟩ : DeltaFunctionKernel).weight col row = 1 ∧
        (∀ x y, ¬(x = col ∧ y = row) →
          (⟨2, 3, col, row⟩ : DeltaFunctionKernel).weight x y = 0) ∧
        (⟨2, 3, col, row⟩ : DeltaFunctionKernel).anchor = (col, row)) ∧
      (∀ i j, i < 2 * 3 → j < 2 * 3 →
        (l[i]?).map DeltaFunctionKernel.anchor =
          (l[j]?).map DeltaFunctionKernel.anchor → i = j)) ∧
    generateDeltaFunctionKernelSet 0 3 =
      Except.error "nRows and nCols must be positive" :=
  ⟨(c6_delta_function_basis 2 3).1 (by decide) (by decide),
   (c6_delta_function_basis 0 3).2 (Or.inl (by decide))⟩

/-- Claim C5: for every pair of images, every convolved plane produced by
the external convolution primitive (covering both the elementary and the
linear-combination kernel overloads), and both background forms, the
difference image's intensity at every pixel is
`imageToNotConvolve − (convolved + background)`. -/
theorem c5_convolve_and_subtract (convolved imageToNotConvolve : ℕ × ℕ → ℚ)
    (background : ℚ) (backgroundFunction : ℚ → ℚ → ℚ) (p : ℕ × ℕ) :
    convolveAndSubtractConst convolved imageToNotConvolve background p =
      imageToNotConvolve p - (convolved p + background) ∧
    convolveAndSubtractFn convolved imageToNotConvolve backgroundFunction p =
      imageToNotConvolve p -
        (convolved p + backgroundFunction (p.1 : ℚ) (p.2 : ℚ)) := by
  constructor
  · simp only [convolveAndSubtractConst]
    ring
  · simp only [convolveAndSubtractFn, addFunctionToImage]
    ring

/-- Claim C3, counterexample to the stated high-side border: for an image
axis of length 100 and a kernel of extent 5 anchored at 2, the code's last
accumulated index is `windowEnd - 1 = 97`, the claim's formula
`size − 1 − (extent − anchor)` gives 96, and the convolution is in fact
still defined at index 97 — the claim overstates the high-side border by
one. -/
theorem c3_counterexample :
    windowEnd 100 5 2 - 1 = 97 ∧ 100 - 1 - (5 - 2) = 96 ∧ (97 : ℕ) ≠ 96 ∧
    convReadsInBounds 100 5 2 97 := by
  refine ⟨by decide, by decide, by decide, by decide⟩

/-- Claim C3 as amended: on each axis the accumulation window starts at the
basis kernel's anchor offset (first accumulated index = anchor) and
excludes a border of `extent − anchor − 1` on the high side (last
accumulated index = `size − (extent − anchor)`), and every convolution
with that extent and anchor is defined (reads only in-bounds source
pixels) at every accumulated index. -/
theorem c3_window_convolutions_defined (size kSize ctr : ℕ)
    (hck : ctr < kSize) (hks : kSize ≤ size) :
    windowStart ctr = ctr ∧
    windowEnd size kSize ctr - 1 = size - (kSize - ctr) ∧
    windowEnd size kSize ctr - 1 = size - 1 - (kSize - ctr - 1) ∧
    (∀ p, windowStart ctr ≤ p → p < windowEnd size kSize ctr →
      convReadsInBounds size kSize ctr p) := by
  refine ⟨rfl, by simp [windowEnd], by simp only [windowEnd]; omega, ?_⟩
  intro p hp1 hp2
  simp only [windowStart] at hp1
  simp only [windowEnd] at hp2
  refine ⟨hp1, ?_⟩
  intro t ht
  omega

/-- Witness for C3 at `size = 100`, `kSize = 5`, `ctr = 2`. -/
theorem c3_window_convolutions_defined_witness :
    windowStart 2 = 2 ∧
    windowEnd 100 5 2 - 1 = 100 - (5 - 2) ∧
    windowEnd 100 5 2 - 1 = 100 - 1 - (5 - 2 - 1) ∧
    (∀ p, windowStart 2 ≤ p → p < windowEnd 100 5 2 →
      convReadsInBounds 100 5 2 p) :=
  c3_window_convolutions_defined 100 5 2 (by decide) (by decide)

/-- Claim C2 (code bug): on the three-pixel image with intensities 0, 1, 2,
all variances 1 and all masks clear, the source's
`calculateMaskedImageStatistics` returns count 3, mean 1 and variance 2/3,
because the factor `nGoodPixels / (nGoodPixels - 1)` is an integer division
(`3 / 2 = 1`); the spec's exact unbiased-variance formula (with rational
factor 3/2) gives 1 on the same sums, and 2/3 ≠ 1. -/
theorem c2_variance_factor_is_integer_division :
    calculateMaskedImageStatisticsNoMask (fun q => q)
      [⟨0, 1, 0⟩, ⟨1, 1, 0⟩, ⟨2, 1, 0⟩] = (3, some 1, some (2/3)) ∧
    specUnbiasedVariance 5 1 3 = 1 ∧ (2/3 : ℚ) ≠ 1 := by
  refine ⟨?_, ?_, by norm_num⟩
  · simp only [calculateMaskedImageStatisticsNoMask, statsAccum, statsFromSums,
      List.foldl]
    norm_num
  · simp only [specUnbiasedVariance]
    norm_num

/-- Claim C10: calling the explicit-mask overload with `badPixelMask = 0`
counts every pixel (`mask & 0` is always clear), the no-mask overload counts
only pixels with `mask == 0`, and on any image containing a pixel with a
nonzero mask the two overloads return different counts. -/
theorem c10_zero_mask_overloads_differ (sqrtFn : ℚ → ℚ)
    (pixels : List MaskedPixel) :
    (calculateMaskedImageStatisticsMasked sqrtFn pixels 0).1 = pixels.length ∧
    (calculateMaskedImageStatisticsNoMask sqrtFn pixels).1 =
      (pixels.filter (fun p => p.mask == 0)).length ∧
    ((∃ p ∈ pixels, p.mask ≠ 0) →
      (calculateMaskedImageStatisticsMasked sqrtFn pixels 0).1 ≠
        (calculateMaskedImageStatisticsNoMask sqrtFn pixels).1) := by
  have hall : (calculateMaskedImageStatisticsMasked sqrtFn pixels 0).1 =
      pixels.length := by
    simp [calculateMaskedImageStatisticsMasked, statsAccum_count]
  have hzero : (calculateMaskedImageStatisticsNoMask sqrtFn pixels).1 =
      (pixels.filter (fun p => p.mask == 0)).length := by
    simp [calculateMaskedImageStatisticsNoMask, statsAccum_count]
  refine ⟨hall, hzero, ?_⟩
  rintro ⟨p, hp, hpm⟩
  rw [hall, hzero]
  have hlt : (pixels.filter (fun p => p.mask == 0)).length < pixels.length :=
    length_filter_lt_of_mem_not hp (by simpa using hpm)
  omega

/-- Witness for C10 at a concrete input: the singleton image whose only
pixel has mask 1. -/
theorem c10_zero_mask_overloads_differ_witness :
    (∃ p ∈ [(⟨0, 1, 1⟩ : MaskedPixel)], p.mask ≠ 0) ∧
    (calculateMaskedImageStatisticsMasked (fun q => q) [⟨0, 1, 1⟩] 0).1 ≠
      (calculateMaskedImageStatisticsNoMask (fun q => q) [⟨0, 1, 1⟩]).1 := by
  have h := (c10_zero_mask_overloads_differ (fun q => q) [⟨0, 1, 1⟩]).2.2
  exact ⟨⟨⟨0, 1, 1⟩, by simp, by simp⟩, h ⟨⟨0, 1, 1⟩, by simp, by simp⟩⟩

end Diffim

namespace Diffim

/-! ### Fold helpers for the accumulation proofs -/

theorem foldl_read_add {α β : Type} (step : α → β → α) (read : α → ℚ)
    (f : β → ℚ) (hstep : ∀ a b, read (step a b) = read a + f b) :
    ∀ (l : List β) (acc : α),
      read (l.foldl step acc) = read acc + (l.map f).sum := by
  intro l
  induction l with
  | nil => intro acc; simp
  | cons x xs ih =>
    intro acc
    simp only [List.foldl_cons, List.map_cons, List.sum_cons, ih, hstep]
    ring

theorem foldl_read_frame {α : Type} (step : α → ℕ → α) (read : α → ℚ) :
    ∀ (is : List ℕ), (∀ a k, k ∈ is → read (step a k) = read a) →
      ∀ acc, read (is.foldl step acc) = read acc := by
  intro is
  induction is with
  | nil => intro _ acc; simp
  | cons x xs ih =>
    intro hframe acc
    simp only [List.foldl_cons]
    rw [ih (fun a k hk => hframe a k (List.mem_cons_of_mem x hk))]
    exact hframe acc x (List.mem_cons_self x xs)

theorem foldl_read_once {α : Type} (step : α → ℕ → α) (read : α → ℚ)
    (contrib : ℚ) (tgt : ℕ) :
    ∀ (is : List ℕ), is.Nodup →
      (∀ a k, k ∈ is → k ≠ tgt → read (step a k) = read a) →
      (tgt ∈ is → ∀ a, read (step a tgt) = read a + contrib) →
      ∀ acc, read (is.foldl step acc) =
        read acc + (if tgt ∈ is then contrib else 0) := by
  intro is
  induction is with
  | nil => intro _ _ _ acc; simp
  | cons x xs ih =>
    intro hnd hframe hval acc
    obtain ⟨hx, hxs⟩ := List.nodup_cons.mp hnd
    simp only [List.foldl_cons]
    by_cases hxt : x = tgt
    · subst hxt
      have htgt_not : x ∉ xs := hx
      rw [ih hxs (fun a k hk hkt => hframe a k (List.mem_cons_of_mem x hk) hkt)
        (fun h _ => absurd h htgt_not) (step acc x)]
      rw [hval (List.mem_cons_self x xs) acc]
      simp [htgt_not]
    · rw [ih hxs (fun a k hk hkt => hframe a k (List.mem_cons_of_mem x hk) hkt)
        (fun h a => hval (List.mem_cons_of_mem x h) a) (step acc x)]
      rw [hframe acc x (List.mem_cons_self x xs) hxt]
      have htx : tgt ≠ x := fun h => hxt h.symm
      simp [List.mem_cons, htx]

theorem foldl_updM_inner (i : ℕ) (g : ℕ → ℚ) :
    ∀ (js : List ℕ), js.Nodup → ∀ (M : GslMat) (a b : ℕ),
      (js.foldl (fun M j => updM M i j (g j)) M) a b =
        if a = i ∧ b ∈ js then M a b + g b else M a b := by
  intro js
  induction js with
  | nil => intro _ M a b; simp
  | cons j js ih =>
    intro hnd M a b
    obtain ⟨hj, hjs⟩ := List.nodup_cons.mp hnd
    simp only [List.foldl_cons]
    rw [ih hjs]
    by_cases ha : a = i
    · subst ha
      by_cases hbj : b = j
      · subst hbj
        have hbs : b ∉ js := hj
        simp [hbs, updM]
      · by_cases hbs : b ∈ js
        · simp [hbs, hbj, updM, List.mem_cons]
        · simp [hbs, hbj, updM, List.mem_cons]
    · simp [ha, updM]

end Diffim

namespace Diffim

/-! ### Per-iteration effects of the accumulation loop -/

theorem accumInner_eq (n k : ℕ) (iv : ℚ) (Cpt : ℕ → ℚ) (M : GslMat)
    (a b : ℕ) :
    ((List.range' k (n - k)).foldl
      (fun M kidxj => updM M k kidxj (Cpt k * Cpt kidxj * iv)) M) a b =
      if a = k ∧ b ∈ List.range' k (n - k) then M a b + Cpt k * Cpt b * iv
      else M a b :=
  foldl_updM_inner k (fun j => Cpt k * Cpt j * iv) (List.range' k (n - k))
    (List.nodup_range' ..) M a b

theorem accumRowStep_M_frame (n : ℕ) (nc iv : ℚ) (Cpt : ℕ → ℚ)
    (MB : GslMat × GslVec) (k a b : ℕ) (hak : a ≠ k) :
    (accumRowStep n nc iv Cpt MB k).1 a b = MB.1 a b := by
  simp only [accumRowStep, updM, accumInner_eq]
  simp [hak]

theorem accumRowStep_B_frame (n : ℕ) (nc iv : ℚ) (Cpt : ℕ → ℚ)
    (MB : GslMat × GslVec) (k a : ℕ) (hak : a ≠ k) :
    (accumRowStep n nc iv Cpt MB k).2 a = MB.2 a := by
  simp only [accumRowStep, updV]
  simp [hak]

theorem accumRowStep_M_mid (n : ℕ) (nc iv : ℚ) (Cpt : ℕ → ℚ)
    (MB : GslMat × GslVec) (k j : ℕ) (hkj : k ≤ j) (hjn : j < n) :
    (accumRowStep n nc iv Cpt MB k).1 k j = MB.1 k j + Cpt k * Cpt j * iv := by
  have hmem : j ∈ List.range' k (n - k) := List.mem_range'_1.mpr ⟨hkj, by omega⟩
  have hjn2 : j ≠ n := by omega
  simp only [accumRowStep, updM, accumInner_eq]
  simp [hmem, hjn2]

theorem accumRowStep_M_coln (n : ℕ) (nc iv : ℚ) (Cpt : ℕ → ℚ)
    (MB : GslMat × GslVec) (k : ℕ) :
    (accumRowStep n nc iv Cpt MB k).1 k n = MB.1 k n + Cpt k * iv := by
  have hmem : n ∉ List.range' k (n - k) := by
    intro h
    have := List.mem_range'_1.mp h
    omega
  simp only [accumRowStep, updM, accumInner_eq]
  simp [hmem]

theorem accumRowStep_B_val (n : ℕ) (nc iv : ℚ) (Cpt : ℕ → ℚ)
    (MB : GslMat × GslVec) (k : ℕ) :
    (accumRowStep n nc iv Cpt MB k).2 k = MB.2 k + nc * Cpt k * iv := by
  simp only [accumRowStep, updV]
  simp

theorem pixelStep_M_mid (n : ℕ) (T V : ℕ × ℕ → ℚ) (C : ℕ → ℕ × ℕ → ℚ)
    (pt : ℕ × ℕ) (MB : GslMat × GslVec) (i j : ℕ) (hij : i ≤ j) (hjn : j < n) :
    (pixelStep n T V C pt MB).1 i j =
      MB.1 i j + C i pt * C j pt * (1 / V pt) := by
  have hin : i < n := lt_of_le_of_lt hij hjn
  have hframe : ∀ (a : GslMat × GslVec) (k : ℕ), k ∈ List.range n → k ≠ i →
      (accumRowStep n (T pt) (1 / V pt) (fun t => C t pt) a k).1 i j = a.1 i j :=
    fun a k _ hk => accumRowStep_M_frame n (T pt) (1 / V pt) _ a k i j
      (fun h => hk h.symm)
  have hval : i ∈ List.range n → ∀ a : GslMat × GslVec,
      (accumRowStep n (T pt) (1 / V pt) (fun t => C t pt) a i).1 i j =
        a.1 i j + C i pt * C j pt * (1 / V pt) :=
    fun _ a => accumRowStep_M_mid n (T pt) (1 / V pt) _ a i j hij hjn
  have h := foldl_read_once (accumRowStep n (T pt) (1 / V pt) (fun t => C t pt))
    (fun MB => MB.1 i j) (C i pt * C j pt * (1 / V pt)) i (List.range n)
    (List.nodup_range ..) hframe hval MB
  simp only [List.mem_range, hin, if_true] at h
  have hnn : ¬(i = n ∧ j = n) := by omega
  simp only [pixelStep, updM]
  rw [if_neg hnn]
  exact h

theorem pixelStep_M_coln (n : ℕ) (T V : ℕ × ℕ → ℚ) (C : ℕ → ℕ × ℕ → ℚ)
    (pt : ℕ × ℕ) (MB : GslMat × GslVec) (i : ℕ) (hin : i < n) :
    (pixelStep n T V C pt MB).1 i n = MB.1 i n + C i pt * (1 / V pt) := by
  have hframe : ∀ (a : GslMat × GslVec) (k : ℕ), k ∈ List.range n → k ≠ i →
      (accumRowStep n (T pt) (1 / V pt) (fun t => C t pt) a k).1 i n = a.1 i n :=
    fun a k _ hk => accumRowStep_M_frame n (T pt) (1 / V pt) _ a k i n
      (fun h => hk h.symm)
  have hval : i ∈ List.range n → ∀ a : GslMat × GslVec,
      (accumRowStep n (T pt) (1 / V pt) (fun t => C t pt) a i).1 i n =
        a.1 i n + C i pt * (1 / V pt) :=
    fun _ a => accumRowStep_M_coln n (T pt) (1 / V pt) _ a i
  have h := foldl_read_once (accumRowStep n (T pt) (1 / V pt) (fun t => C t pt))
    (fun MB => MB.1 i n) (C i pt * (1 / V pt)) i (List.range n)
    (List.nodup_range ..) hframe hval MB
  simp only [List.mem_range, hin, if_true] at h
  have hni : i ≠ n := by omega
  simp only [pixelStep, updM]
  rw [if_neg (by simp [hni])]
  exact h

theorem pixelStep_M_nn (n : ℕ) (T V : ℕ × ℕ → ℚ) (C : ℕ → ℕ × ℕ → ℚ)
    (pt : ℕ × ℕ) (MB : GslMat × GslVec) :
    (pixelStep n T V C pt MB).1 n n = MB.1 n n + 1 * (1 / V pt) := by
  have hframe : ∀ (a : GslMat × GslVec) (k : ℕ), k ∈ List.range n →
      (accumRowStep n (T pt) (1 / V pt) (fun t => C t pt) a k).1 n n = a.1 n n :=
    fun a k hk => accumRowStep_M_frame n (T pt) (1 / V pt) _ a k n n
      (by have := List.mem_range.mp hk; omega)
  have h := foldl_read_frame (accumRowStep n (T pt) (1 / V pt) (fun t => C t pt))
    (fun MB => MB.1 n n) (List.range n) hframe MB
  simp only [pixelStep, updM]
  rw [if_pos (by simp), h]

theorem pixelStep_B_val (n : ℕ) (T V : ℕ × ℕ → ℚ) (C : ℕ → ℕ × ℕ → ℚ)
    (pt : ℕ × ℕ) (MB : GslMat × GslVec) (i : ℕ) (hin : i < n) :
    (pixelStep n T V C pt MB).2 i = MB.2 i + T pt * C i pt * (1 / V pt) := by
  have hframe : ∀ (a : GslMat × GslVec) (k : ℕ), k ∈ List.range n → k ≠ i →
      (accumRowStep n (T pt) (1 / V pt) (fun t => C t pt) a k).2 i = a.2 i :=
    fun a k _ hk => accumRowStep_B_frame n (T pt) (1 / V pt) _ a k i
      (fun h => hk h.symm)
  have hval : i ∈ List.range n → ∀ a : GslMat × GslVec,
      (accumRowStep n (T pt) (1 / V pt) (fun t => C t pt) a i).2 i =
        a.2 i + T pt * C i pt * (1 / V pt) :=
    fun _ a => accumRowStep_B_val n (T pt) (1 / V pt) _ a i
  have h := foldl_read_once (accumRowStep n (T pt) (1 / V pt) (fun t => C t pt))
    (fun MB => MB.2 i) (T pt * C i pt * (1 / V pt)) i (List.range n)
    (List.nodup_range ..) hframe hval MB
  simp only [List.mem_range, hin, if_true] at h
  have hni : i ≠ n := by omega
  simp only [pixelStep, updV]
  rw [if_neg hni]
  exact h

theorem pixelStep_B_n (n : ℕ) (T V : ℕ × ℕ → ℚ) (C : ℕ → ℕ × ℕ → ℚ)
    (pt : ℕ × ℕ) (MB : GslMat × GslVec) :
    (pixelStep n T V C pt MB).2 n = MB.2 n + T pt * (1 / V pt) := by
  have hframe : ∀ (a : GslMat × GslVec) (k : ℕ), k ∈ List.range n →
      (accumRowStep n (T pt) (1 / V pt) (fun t => C t pt) a k).2 n = a.2 n :=
    fun a k hk => accumRowStep_B_frame n (T pt) (1 / V pt) _ a k n
      (by have := List.mem_range.mp hk; omega)
  have h := foldl_read_frame (accumRowStep n (T pt) (1 / V pt) (fun t => C t pt))
    (fun MB => MB.2 n) (List.range n) hframe MB
  simp only [pixelStep, updV]
  rw [if_pos (by simp), h]

end Diffim

namespace Diffim

/-! ### Closed forms of the accumulated normal equations -/

theorem scan_M_mid (n : ℕ) (T V : ℕ × ℕ → ℚ) (C : ℕ → ℕ × ℕ → ℚ)
    (pts : List (ℕ × ℕ)) (i j : ℕ) (hij : i ≤ j) (hjn : j < n) :
    (normalEquationsScan n T V C pts).1 i j =
      (pts.map (fun pt => C i pt * C j pt * (1 / V pt))).sum := by
  have h := foldl_read_add (fun MB pt => pixelStep n T V C pt MB)
    (fun MB => MB.1 i j) (fun pt => C i pt * C j pt * (1 / V pt))
    (fun a b => pixelStep_M_mid n T V C b a i j hij hjn) pts
    ((fun _ _ => 0 : GslMat), (fun _ => 0 : GslVec))
  simpa [normalEquationsScan] using h

theorem scan_M_coln (n : ℕ) (T V : ℕ × ℕ → ℚ) (C : ℕ → ℕ × ℕ → ℚ)
    (pts : List (ℕ × ℕ)) (i : ℕ) (hin : i < n) :
    (normalEquationsScan n T V C pts).1 i n =
      (pts.map (fun pt => C i pt * (1 / V pt))).sum := by
  have h := foldl_read_add (fun MB pt => pixelStep n T V C pt MB)
    (fun MB => MB.1 i n) (fun pt => C i pt * (1 / V pt))
    (fun a b => pixelStep_M_coln n T V C b a i hin) pts
    ((fun _ _ => 0 : GslMat), (fun _ => 0 : GslVec))
  simpa [normalEquationsScan] using h

theorem scan_M_nn (n : ℕ) (T V : ℕ × ℕ → ℚ) (C : ℕ → ℕ × ℕ → ℚ)
    (pts : List (ℕ × ℕ)) :
    (normalEquationsScan n T V C pts).1 n n =
      (pts.map (fun pt => 1 / V pt)).sum := by
  have h := foldl_read_add (fun MB pt => pixelStep n T V C pt MB)
    (fun MB => MB.1 n n) (fun pt => 1 * (1 / V pt))
    (fun a b => pixelStep_M_nn n T V C b a) pts
    ((fun _ _ => 0 : GslMat), (fun _ => 0 : GslVec))
  simpa [normalEquationsScan] using h

theorem scan_B_val (n : ℕ) (T V : ℕ × ℕ → ℚ) (C : ℕ → ℕ × ℕ → ℚ)
    (pts : List (ℕ × ℕ)) (i : ℕ) (hin : i < n) :
    (normalEquationsScan n T V C pts).2 i =
      (pts.map (fun pt => T pt * C i pt * (1 / V pt))).sum := by
  have h := foldl_read_add (fun MB pt => pixelStep n T V C pt MB)
    (fun MB => MB.2 i) (fun pt => T pt * C i pt * (1 / V pt))
    (fun a b => pixelStep_B_val n T V C b a i hin) pts
    ((fun _ _ => 0 : GslMat), (fun _ => 0 : GslVec))
  simpa [normalEquationsScan] using h

theorem scan_B_n (n : ℕ) (T V : ℕ × ℕ → ℚ) (C : ℕ → ℕ × ℕ → ℚ)
    (pts : List (ℕ × ℕ)) :
    (normalEquationsScan n T V C pts).2 n =
      (pts.map (fun pt => T pt * (1 / V pt))).sum := by
  have h := foldl_read_add (fun MB pt => pixelStep n T V C pt MB)
    (fun MB => MB.2 n) (fun pt => T pt * (1 / V pt))
    (fun a b => pixelStep_B_n n T V C b a) pts
    ((fun _ _ => 0 : GslMat), (fun _ => 0 : GslVec))
  simpa [normalEquationsScan] using h

/-! ### The mirroring step -/

theorem mirror_inner_fold (i : ℕ) :
    ∀ (js : List ℕ), (∀ j ∈ js, i < j) → ∀ (M : GslMat) (a b : ℕ),
      (js.foldl (fun M j => setM M j i (M i j)) M) a b =
        if b = i ∧ a ∈ js then M i a else M a b := by
  intro js
  induction js with
  | nil => intro _ M a b; simp
  | cons j js ih =>
    intro hjs M a b
    have hij : i < j := hjs j (List.mem_cons_self j js)
    have hine : i ≠ j := by omega
    simp only [List.foldl_cons]
    rw [ih (fun t ht => hjs t (List.mem_cons_of_mem j ht))]
    by_cases hb : b = i
    · subst hb
      by_cases hajs : a ∈ js
      · simp [hajs, setM, hine]
      · by_cases haj : a = j
        · subst haj
          simp [hajs, setM, List.mem_cons]
        · simp [hajs, haj, setM, List.mem_cons]
    · have hbi : ¬(b = i ∧ a ∈ js) := fun h => hb h.1
      rw [if_neg hbi, if_neg (fun h => hb h.1)]
      simp [setM, hb]

theorem mirror_outer_fold (p : ℕ) :
    ∀ (is : List ℕ), (∀ k ∈ is, k < p) → ∀ (M : GslMat) (a b : ℕ),
      (is.foldl
        (fun M kidxi =>
          (List.range' (kidxi + 1) (p - (kidxi + 1))).foldl
            (fun M kidxj => setM M kidxj kidxi (M kidxi kidxj)) M) M) a b =
        if b ∈ is ∧ b < a ∧ a < p then M b a else M a b := by
  intro is
  induction is with
  | nil => intro _ M a b; simp
  | cons k is ih =>
    intro his M a b
    have hkp : k < p := his k (List.mem_cons_self k is)
    have hstep : ∀ (N : GslMat) (x y : ℕ),
        ((List.range' (k + 1) (p - (k + 1))).foldl
          (fun M kidxj => setM M kidxj k (M k kidxj)) N) x y =
          if y = k ∧ (k < x ∧ x < p) then N k x else N x y := by
      intro N x y
      rw [mirror_inner_fold k (List.range' (k + 1) (p - (k + 1)))
        (fun t ht => by have := List.mem_range'_1.mp ht; omega) N x y]
      have hiff : (x ∈ List.range' (k + 1) (p - (k + 1))) ↔ (k < x ∧ x < p) := by
        rw [List.mem_range'_1]
        omega
      by_cases hc : y = k ∧ (k < x ∧ x < p)
      · rw [if_pos ⟨hc.1, hiff.mpr hc.2⟩, if_pos hc]
      · rw [if_neg (fun h => hc ⟨h.1, hiff.mp h.2⟩), if_neg hc]
    simp only [List.foldl_cons]
    rw [ih (fun t ht => his t (List.mem_cons_of_mem k ht))]
    by_cases hcore : b < a ∧ a < p
    · by_cases hbis : b ∈ is
      · rw [if_pos ⟨hbis, hcore⟩, if_pos ⟨List.mem_cons_of_mem k hbis, hcore⟩]
        rw [hstep M b a]
        rw [if_neg (by omega)]
      · by_cases hbk : b = k
        · subst hbk
          rw [if_neg (fun h => hbis h.1), if_pos ⟨List.mem_cons_self b is, hcore⟩]
          rw [hstep M a b]
          rw [if_pos ⟨rfl, by omega, hcore.2⟩]
        · rw [if_neg (fun h => hbis h.1),
            if_neg (fun h => by
              rcases List.mem_cons.mp h.1 with hc | hc
              · exact hbk hc
              · exact hbis hc)]
          rw [hstep M a b]
          rw [if_neg (fun h => hbk h.1)]
    · rw [if_neg (fun h => hcore h.2), if_neg (fun h => hcore h.2)]
      rw [hstep M a b]
      rw [if_neg (fun h => hcore ⟨by omega, h.2.2⟩)]

theorem mirrorFill_eq (p : ℕ) (M : GslMat) (a b : ℕ) :
    mirrorFill p M a b = if b < a ∧ a < p then M b a else M a b := by
  have h := mirror_outer_fold p (List.range p)
    (fun k hk => List.mem_range.mp hk) M a b
  simp only [mirrorFill]
  rw [h]
  by_cases hc : b < a ∧ a < p
  · rw [if_pos ⟨List.mem_range.mpr (by omega), hc⟩, if_pos hc]
  · rw [if_neg (fun h => hc h.2), if_neg hc]

end Diffim

namespace Diffim

/-- Claim C4: at the end of the pixel scan over the accumulation window,
with `n = |basis|` and `p = n + 1`, for all `0 ≤ i ≤ j < n`:
`M[i][j] = Σ Cᵢ·Cⱼ·w`, `M[i][p-1] = Σ Cᵢ·w`, `B[i] = Σ T·Cᵢ·w`,
`B[p-1] = Σ T·w` and `M[p-1][p-1] = Σ w`, where the sums range over the
window pixels, `T` is the intensity of `imageToNotConvolve`,
`w = 1 / variance` of the separately supplied `varianceImage`, and `Cᵢ`
the intensity of the i-th convolved basis image; and after the mirroring
step the matrix is symmetric on all of `p × p`. -/
theorem c4_normal_equations_accumulation (n : ℕ) (T V : ℕ × ℕ → ℚ)
    (C : ℕ → ℕ × ℕ → ℚ) (startCol endCol startRow endRow : ℕ) :
    (∀ i j, i ≤ j → j < n →
      (normalEquationsScan n T V C
          (windowPoints startCol endCol startRow endRow)).1 i j =
        ((windowPoints startCol endCol startRow endRow).map
          (fun pt => C i pt * C j pt * (1 / V pt))).sum) ∧
    (∀ i, i < n →
      (normalEquationsScan n T V C
          (windowPoints startCol endCol startRow endRow)).1 i n =
        ((windowPoints startCol endCol startRow endRow).map
          (fun pt => C i pt * (1 / V pt))).sum) ∧
    (∀ i, i < n →
      (normalEquationsScan n T V C
          (windowPoints startCol endCol startRow endRow)).2 i =
        ((windowPoints startCol endCol startRow endRow).map
          (fun pt => T pt * C i pt * (1 / V pt))).sum) ∧
    (normalEquationsScan n T V C
        (windowPoints startCol endCol startRow endRow)).2 n =
      ((windowPoints startCol endCol startRow endRow).map
        (fun pt => T pt * (1 / V pt))).sum ∧
    (normalEquationsScan n T V C
        (windowPoints startCol endCol startRow endRow)).1 n n =
      ((windowPoints startCol endCol startRow endRow).map
        (fun pt => 1 / V pt)).sum ∧
    (∀ i j, i < n + 1 → j < n + 1 →
      mirrorFill (n + 1)
          (normalEquationsScan n T V C
            (windowPoints startCol endCol startRow endRow)).1 i j =
        mirrorFill (n + 1)
          (normalEquationsScan n T V C
            (windowPoints startCol endCol startRow endRow)).1 j i) := by
  refine ⟨fun i j hij hjn => scan_M_mid n T V C _ i j hij hjn,
    fun i hin => scan_M_coln n T V C _ i hin,
    fun i hin => scan_B_val n T V C _ i hin,
    scan_B_n n T V C _,
    scan_M_nn n T V C _,
    fun i j hip hjp => ?_⟩
  rw [mirrorFill_eq, mirrorFill_eq]
  rcases Nat.lt_trichotomy i j with hlt | heq | hgt
  · rw [if_neg (fun hcon : j < i ∧ i < n + 1 => by omega),
      if_pos (⟨hlt, hjp⟩ : i < j ∧ j < n + 1)]
  · subst heq
    rfl
  · rw [if_pos (⟨hgt, hip⟩ : j < i ∧ i < n + 1),
      if_neg (fun hcon : i < j ∧ j < n + 1 => by omega)]

/-- Witness for C4 at `n = 2` over the window `cols 1..2 × rows 1..1`,
with concrete planes, checking the `M[0][1]`, `M[0][2]`, `B[0]` conjuncts
(hypotheses discharged at `i = 0`, `j = 1`) together with the
hypothesis-free `B[2]`/`M[2][2]` conjuncts and symmetry at `(2, 0)`. -/
theorem c4_normal_equations_accumulation_witness :
    (normalEquationsScan 2 (fun pt => (pt.1 : ℚ)) (fun _ => 2)
        (fun i pt => (i : ℚ) + (pt.2 : ℚ)) (windowPoints 1 3 1 2)).1 0 1 =
      ((windowPoints 1 3 1 2).map
        (fun pt => ((0 : ℚ) + (pt.2 : ℚ)) * ((1 : ℚ) + (pt.2 : ℚ)) *
          (1 / 2))).sum ∧
    (normalEquationsScan 2 (fun pt => (pt.1 : ℚ)) (fun _ => 2)
        (fun i pt => (i : ℚ) + (pt.2 : ℚ)) (windowPoints 1 3 1 2)).2 2 =
      ((windowPoints 1 3 1 2).map (fun pt => (pt.1 : ℚ) * (1 / 2))).sum ∧
    mirrorFill 3 (normalEquationsScan 2 (fun pt => (pt.1 : ℚ)) (fun _ => 2)
        (fun i pt => (i : ℚ) + (pt.2 : ℚ)) (windowPoints 1 3 1 2)).1 2 0 =
      mirrorFill 3 (normalEquationsScan 2 (fun pt => (pt.1 : ℚ)) (fun _ => 2)
        (fun i pt => (i : ℚ) + (pt.2 : ℚ)) (windowPoints 1 3 1 2)).1 0 2 := by
  have h := c4_normal_equations_accumulation 2 (fun pt => (pt.1 : ℚ))
    (fun _ => 2) (fun i pt => (i : ℚ) + (pt.2 : ℚ)) 1 3 1 2
  exact ⟨h.1 0 1 (by decide) (by decide), h.2.2.2.1,
    (h.2.2.2.2.2 2 0 (by decide) (by decide)).symm ▸ rfl⟩

end Diffim

namespace Diffim

/-! ## Kernel solver: solve stage and translation stage
    (`ImageSubtract.cc` lines 606-702).

    The solution vector `X` and covariance matrix `Cov` hold C++ doubles
    that may be NaN, modelled as `Option ℚ` entries (`none` = NaN).  The
    GSL numerical kernels used to compute `X` from `M` and `B`
    (`gsl_linalg_balance_columns`, `gsl_linalg_SV_decomp_mod`,
    `gsl_blas_dgemv`, the singular-value truncation and `gsl_vector_div`)
    are external library calls, abstracted as one function `svdSolve`.
    Crucially, `Cov` is only ever ALLOCATED by the source
    (`gsl_matrix_alloc` at line 608) and never written: the library call
    that would have computed it, `gsl_multifit_linear_svd`, is commented
    out (lines 611-613), so the translation stage reads whatever the
    allocation returned. -/

/-- The three exception messages thrown by the translation stage
(lines 667-678 and 690-698): a NaN solution entry, a NaN covariance
diagonal entry, and a negative covariance diagonal entry (the message
carries the offending value via `boost::format("... (%.3e)")`, but no
parameter index). -/
inductive FitError where
  | solutionNan : FitError
  | uncertaintyNan : FitError
  | uncertaintyNegative : ℚ → FitError
deriving DecidableEq

/-- The per-parameter body of the translation loop (lines 666-681): check
`X[idx]` for NaN, check `Cov[idx][idx]` for NaN and for a negative value,
then produce `kValues[idx] = X[idx]` and
`kErrValues[idx] = sqrt(Cov[idx][idx])`. -/
def checkEntry (sqrtFn : ℚ → ℚ) (X : ℕ → Option ℚ) (Cov : ℕ → ℕ → Option ℚ)
    (idx : ℕ) : Except FitError (ℚ × ℚ) :=
  match X idx with
  | none => Except.error FitError.solutionNan
  | some x =>
    match Cov idx idx with
    | none => Except.error FitError.uncertaintyNan
    | some c =>
      if c < 0 then Except.error (FitError.uncertaintyNegative c)
      else Except.ok (x, sqrtFn c)

/-- The translation loop over `idx = 0 .. m-1` (the source's row-major
double loop over `kRows × kCols`, lines 663-683), building `kValues` and
`kErrValues` in order; the first failing index's exception propagates. -/
def translateEntries (sqrtFn : ℚ → ℚ) (X : ℕ → Option ℚ)
    (Cov : ℕ → ℕ → Option ℚ) : ℕ → Except FitError (List ℚ × List ℚ)
  | 0 => Except.ok ([], [])
  | m + 1 => do
    let kv ← translateEntries sqrtFn X Cov m
    let xe ← checkEntry sqrtFn X Cov m
    pure (kv.1 ++ [xe.1], kv.2 ++ [xe.2])

/-- The background stage (lines 689-700): check
`Cov[nParameters-1][nParameters-1]` for NaN and negativity, then
`background = X[nParameters-1]` (read without any NaN check) and
`backgroundError = sqrt(Cov[nParameters-1][nParameters-1])`. -/
def backgroundStage (sqrtFn : ℚ → ℚ) (X : ℕ → Option ℚ)
    (Cov : ℕ → ℕ → Option ℚ) (nParameters : ℕ) :
    Except FitError (Option ℚ × ℚ) :=
  match Cov (nParameters - 1) (nParameters - 1) with
  | none => Except.error FitError.uncertaintyNan
  | some c =>
    if c < 0 then Except.error (FitError.uncertaintyNegative c)
    else Except.ok (X (nParameters - 1), sqrtFn c)

/-- The outputs of the translation stage: the kernel coefficients, the
error-kernel coefficients, the background (possibly NaN) and its
uncertainty. -/
structure FitTranslation where
  kValues : List ℚ
  kErrValues : List ℚ
  background : Option ℚ
  backgroundError : ℚ
deriving DecidableEq

/-- The whole translation stage (lines 659-701): the `kCols × kRows`
loop, then the background checks and outputs. -/
def translateSolution (sqrtFn : ℚ → ℚ) (kCols kRows nParameters : ℕ)
    (X : ℕ → Option ℚ) (Cov : ℕ → ℕ → Option ℚ) :
    Except FitError FitTranslation := do
  let kv ← translateEntries sqrtFn X Cov (kRows * kCols)
  let bg ← backgroundStage sqrtFn X Cov nParameters
  pure ⟨kv.1, kv.2, bg.1, bg.2⟩

/-- The solve stage (lines 606-651): the solution vector is computed from
`M` and `B` by the external GSL SVD pipeline (`svdSolve`); `Cov` is the
`gsl_matrix_alloc` result `covAlloc`, which no statement of the stage
writes to. -/
def solveStage (svdSolve : GslMat → GslVec → ℕ → Option ℚ) (M : GslMat)
    (B : GslVec) (covAlloc : ℕ → ℕ → Option ℚ) :
    (ℕ → Option ℚ) × (ℕ → ℕ → Option ℚ) :=
  (svdSolve M B, covAlloc)

/-- The solve stage followed by the translation stage
(lines 606-701). -/
def solveAndTranslate (sqrtFn : ℚ → ℚ)
    (svdSolve : GslMat → GslVec → ℕ → Option ℚ) (kCols kRows nParameters : ℕ)
    (M : GslMat) (B : GslVec) (covAlloc : ℕ → ℕ → Option ℚ) :
    Except FitError FitTranslation :=
  translateSolution sqrtFn kCols kRows nParameters
    (solveStage svdSolve M B covAlloc).1 (solveStage svdSolve M B covAlloc).2

end Diffim

namespace Diffim

/-! ### Inversion lemmas for the translation stage -/

theorem checkEntry_ok (sqrtFn : ℚ → ℚ) (X : ℕ → Option ℚ)
    (Cov : ℕ → ℕ → Option ℚ) (idx : ℕ) (x e : ℚ)
    (h : checkEntry sqrtFn X Cov idx = Except.ok (x, e)) :
    ∃ c, X idx = some x ∧ Cov idx idx = some c ∧ ¬c < 0 ∧ e = sqrtFn c := by
  unfold checkEntry at h
  cases hx : X idx with
  | none => rw [hx] at h; simp at h
  | some xv =>
    rw [hx] at h
    cases hc : Cov idx idx with
    | none => rw [hc] at h; simp at h
    | some c =>
      rw [hc] at h
      by_cases hneg : c < 0
      · simp [hneg] at h
      · simp only [if_neg hneg, Except.ok.injEq, Prod.mk.injEq] at h
        exact ⟨c, by rw [h.1], rfl, hneg, h.2.symm⟩

theorem checkEntry_error (sqrtFn : ℚ → ℚ) (X : ℕ → Option ℚ)
    (Cov : ℕ → ℕ → Option ℚ) (idx : ℕ) (e : FitError)
    (h : checkEntry sqrtFn X Cov idx = Except.error e) :
    (e = FitError.solutionNan ∧ X idx = none) ∨
    (e = FitError.uncertaintyNan ∧ Cov idx idx = none) ∨
    (∃ c, e = FitError.uncertaintyNegative c ∧ Cov idx idx = some c ∧
      c < 0) := by
  unfold checkEntry at h
  cases hx : X idx with
  | none =>
    rw [hx] at h
    simp only [Except.error.injEq] at h
    exact Or.inl ⟨h.symm, rfl⟩
  | some xv =>
    rw [hx] at h
    cases hc : Cov idx idx with
    | none =>
      rw [hc] at h
      simp only [Except.error.injEq] at h
      exact Or.inr (Or.inl ⟨h.symm, rfl⟩)
    | some c =>
      rw [hc] at h
      by_cases hneg : c < 0
      · simp only [if_pos hneg, Except.error.injEq] at h
        exact Or.inr (Or.inr ⟨c, h.symm, rfl, hneg⟩)
      · simp [hneg] at h

theorem translateEntries_ok (sqrtFn : ℚ → ℚ) (X : ℕ → Option ℚ)
    (Cov : ℕ → ℕ → Option ℚ) :
    ∀ (m : ℕ) (kv ke : List ℚ),
      translateEntries sqrtFn X Cov m = Except.ok (kv, ke) →
      kv.length = m ∧ ke.length = m ∧
      ∀ i, i < m → ∃ x c, X i = some x ∧ Cov i i = some c ∧ ¬c < 0 ∧
        kv[i]? = some x ∧ ke[i]? = some (sqrtFn c) := by
  intro m
  induction m with
  | zero =>
    intro kv ke h
    simp only [translateEntries] at h
    obtain ⟨h1, h2⟩ := Prod.mk.injEq .. ▸ Except.ok.injEq .. ▸ h
    refine ⟨by rw [← h1]; rfl, by rw [← h2]; rfl, fun i hi => absurd hi (by omega)⟩
  | succ m ih =>
    intro kv ke h
    simp only [translateEntries] at h
    cases hm : translateEntries sqrtFn X Cov m with
    | error e => rw [hm] at h; cases h
    | ok kvke =>
      rw [hm] at h
      cases hc : checkEntry sqrtFn X Cov m with
      | error e =>
        rw [hc] at h
        cases h
      | ok xe =>
        rw [hc] at h
        simp only [Bind.bind, Except.bind, Pure.pure, Except.pure] at h
        obtain ⟨h1, h2⟩ := Prod.mk.injEq .. ▸ Except.ok.injEq .. ▸ h
        obtain ⟨hl1, hl2, hall⟩ := ih kvke.1 kvke.2 (by rw [hm])
        obtain ⟨c, hx, hcov, hneg, he⟩ :=
          checkEntry_ok sqrtFn X Cov m xe.1 xe.2 (by rw [hc])
        refine ⟨by rw [← h1, List.length_append, hl1]; rfl,
          by rw [← h2, List.length_append, hl2]; rfl, ?_⟩
        intro i hi
        by_cases him : i < m
        · obtain ⟨x, c2, hx2, hcov2, hneg2, hkv, hke⟩ := hall i him
          refine ⟨x, c2, hx2, hcov2, hneg2, ?_, ?_⟩
          · rw [← h1, List.getElem?_append_left (by omega), hkv]
          · rw [← h2, List.getElem?_append_left (by omega), hke]
        · have him2 : i = m := by omega
          subst him2
          refine ⟨xe.1, c, hx, hcov, hneg, ?_, ?_⟩
          · rw [← h1, List.getElem?_append_right (by omega), hl1]
            simp
          · rw [← h2, List.getElem?_append_right (by omega), hl2]
            simp [he]

theorem translateEntries_error (sqrtFn : ℚ → ℚ) (X : ℕ → Option ℚ)
    (Cov : ℕ → ℕ → Option ℚ) :
    ∀ (m : ℕ) (e : FitError),
      translateEntries sqrtFn X Cov m = Except.error e →
      ∃ i, i < m ∧ checkEntry sqrtFn X Cov i = Except.error e := by
  intro m
  induction m with
  | zero => intro e h; cases h
  | succ m ih =>
    intro e h
    simp only [translateEntries] at h
    cases hm : translateEntries sqrtFn X Cov m with
    | error e2 =>
      rw [hm] at h
      obtain ⟨i, hi, hce⟩ := ih e2 hm
      cases h
      exact ⟨i, by omega, hce⟩
    | ok kvke =>
      rw [hm] at h
      cases hc : checkEntry sqrtFn X Cov m with
      | error e2 =>
        rw [hc] at h
        cases h
        exact ⟨m, by omega, hc⟩
      | ok xe =>
        rw [hc] at h
        cases h

end Diffim

namespace Diffim

theorem backgroundStage_ok (sqrtFn : ℚ → ℚ) (X : ℕ → Option ℚ)
    (Cov : ℕ → ℕ → Option ℚ) (p : ℕ) (bg : Option ℚ) (bge : ℚ)
    (h : backgroundStage sqrtFn X Cov p = Except.ok (bg, bge)) :
    ∃ c, Cov (p - 1) (p - 1) = some c ∧ ¬c < 0 ∧ bg = X (p - 1) ∧
      bge = sqrtFn c := by
  unfold backgroundStage at h
  cases hc : Cov (p - 1) (p - 1) with
  | none => rw [hc] at h; simp at h
  | some c =>
    rw [hc] at h
    by_cases hneg : c < 0
    · simp [hneg] at h
    · simp only [if_neg hneg, Except.ok.injEq, Prod.mk.injEq] at h
      exact ⟨c, rfl, hneg, h.1.symm, h.2.symm⟩

theorem backgroundStage_error (sqrtFn : ℚ → ℚ) (X : ℕ → Option ℚ)
    (Cov : ℕ → ℕ → Option ℚ) (p : ℕ) (e : FitError)
    (h : backgroundStage sqrtFn X Cov p = Except.error e) :
    (e = FitError.uncertaintyNan ∧ Cov (p - 1) (p - 1) = none) ∨
    (∃ c, e = FitError.uncertaintyNegative c ∧
      Cov (p - 1) (p - 1) = some c ∧ c < 0) := by
  unfold backgroundStage at h
  cases hc : Cov (p - 1) (p - 1) with
  | none =>
    rw [hc] at h
    simp only [Except.error.injEq] at h
    exact Or.inl ⟨h.symm, rfl⟩
  | some c =>
    rw [hc] at h
    by_cases hneg : c < 0
    · simp only [if_pos hneg, Except.error.injEq] at h
      exact Or.inr ⟨c, h.symm, rfl, hneg⟩
    · simp [hneg] at h

theorem translateSolution_ok (sqrtFn : ℚ → ℚ) (kCols kRows p : ℕ)
    (X : ℕ → Option ℚ) (Cov : ℕ → ℕ → Option ℚ) (r : FitTranslation)
    (h : translateSolution sqrtFn kCols kRows p X Cov = Except.ok r) :
    ∃ kv ke bg bge,
      translateEntries sqrtFn X Cov (kRows * kCols) = Except.ok (kv, ke) ∧
      backgroundStage sqrtFn X Cov p = Except.ok (bg, bge) ∧
      r = ⟨kv, ke, bg, bge⟩ := by
  unfold translateSolution at h
  cases ht : translateEntries sqrtFn X Cov (kRows * kCols) with
  | error e => rw [ht] at h; simp [Bind.bind, Except.bind] at h
  | ok kvke =>
    rw [ht] at h
    cases hb : backgroundStage sqrtFn X Cov p with
    | error e =>
      rw [hb] at h
      simp [Bind.bind, Except.bind] at h
    | ok bgp =>
      rw [hb] at h
      simp only [Bind.bind, Except.bind, Pure.pure, Except.pure,
        Except.ok.injEq] at h
      exact ⟨kvke.1, kvke.2, bgp.1, bgp.2, rfl, rfl, h.symm⟩


theorem translateSolution_error (sqrtFn : ℚ → ℚ) (kCols kRows p : ℕ)
    (X : ℕ → Option ℚ) (Cov : ℕ → ℕ → Option ℚ) (e : FitError)
    (h : translateSolution sqrtFn kCols kRows p X Cov = Except.error e) :
    translateEntries sqrtFn X Cov (kRows * kCols) = Except.error e ∨
    backgroundStage sqrtFn X Cov p = Except.error e := by
  unfold translateSolution at h
  cases ht : translateEntries sqrtFn X Cov (kRows * kCols) with
  | error e2 =>
    rw [ht] at h
    simp only [Bind.bind, Except.bind, Except.error.injEq] at h
    exact Or.inl (h ▸ rfl)
  | ok kvke =>
    rw [ht] at h
    cases hb : backgroundStage sqrtFn X Cov p with
    | error e2 =>
      rw [hb] at h
      simp only [Bind.bind, Except.bind, Except.error.injEq] at h
      exact Or.inr (h ▸ rfl)
    | ok bgp =>
      rw [hb] at h
      simp [Bind.bind, Except.bind, Pure.pure, Except.pure] at h

end Diffim

namespace Diffim

/-- Claim C1 (code bug): the error outputs of the solve-and-translate stage
are built solely from `covAlloc`, the content of `Cov` as returned by
`gsl_matrix_alloc` — which the solve never writes (the
`gsl_multifit_linear_svd` call that would have computed the parameter
covariance is commented out).  Hence two successful runs on arbitrary,
entirely different normal equations and solver pipelines but the same
allocation content produce identical error kernels and background errors,
each entry being `sqrt` of the corresponding allocation entry — not a
covariance estimated from the solve. -/
theorem c1_error_outputs_read_unwritten_cov (sqrtFn : ℚ → ℚ)
    (svdSolve₁ svdSolve₂ : GslMat → GslVec → ℕ → Option ℚ)
    (M₁ M₂ : GslMat) (B₁ B₂ : GslVec) (covAlloc : ℕ → ℕ → Option ℚ)
    (kCols kRows p : ℕ) (r₁ r₂ : FitTranslation)
    (h₁ : solveAndTranslate sqrtFn svdSolve₁ kCols kRows p M₁ B₁ covAlloc =
      Except.ok r₁)
    (h₂ : solveAndTranslate sqrtFn svdSolve₂ kCols kRows p M₂ B₂ covAlloc =
      Except.ok r₂) :
    r₁.kErrValues = r₂.kErrValues ∧
    r₁.backgroundError = r₂.backgroundError ∧
    (∀ i, i < kRows * kCols → ∃ c, covAlloc i i = some c ∧ ¬c < 0 ∧
      r₁.kErrValues[i]? = some (sqrtFn c)) ∧
    (∃ c, covAlloc (p - 1) (p - 1) = some c ∧ ¬c < 0 ∧
      r₁.backgroundError = sqrtFn c) := by
  obtain ⟨kv₁, ke₁, bg₁, bge₁, ht₁, hb₁, hr₁⟩ :=
    translateSolution_ok sqrtFn kCols kRows p _ _ r₁ h₁
  obtain ⟨kv₂, ke₂, bg₂, bge₂, ht₂, hb₂, hr₂⟩ :=
    translateSolution_ok sqrtFn kCols kRows p _ _ r₂ h₂
  obtain ⟨hlkv₁, hlke₁, hall₁⟩ := translateEntries_ok _ _ _ _ kv₁ ke₁ ht₁
  obtain ⟨hlkv₂, hlke₂, hall₂⟩ := translateEntries_ok _ _ _ _ kv₂ ke₂ ht₂
  obtain ⟨c₁, hc₁, hneg₁, hbg₁, hbge₁⟩ :=
    backgroundStage_ok _ _ _ _ bg₁ bge₁ hb₁
  obtain ⟨c₂, hc₂, hneg₂, hbg₂, hbge₂⟩ :=
    backgroundStage_ok _ _ _ _ bg₂ bge₂ hb₂
  have hke : ke₁ = ke₂ := by
    apply List.ext_getElem?
    intro i
    by_cases hi : i < kRows * kCols
    · obtain ⟨x₁, d₁, _, hcov₁, _, _, hke₁⟩ := hall₁ i hi
      obtain ⟨x₂, d₂, _, hcov₂, _, _, hke₂⟩ := hall₂ i hi
      have : d₁ = d₂ := by
        have := hcov₁.symm.trans hcov₂
        simpa using this
      rw [hke₁, hke₂, this]
    · rw [List.getElem?_eq_none (by omega), List.getElem?_eq_none (by omega)]
  have hc12 : c₁ = c₂ := by
    have := hc₁.symm.trans hc₂
    simpa using this
  subst hr₁
  subst hr₂
  refine ⟨hke, by rw [hbge₁, hbge₂, hc12], ?_, ⟨c₁, hc₁, hneg₁, hbge₁⟩⟩
  intro i hi
  obtain ⟨x₁, d₁, _, hcov₁, hnegd₁, _, hkei⟩ := hall₁ i hi
  exact ⟨d₁, hcov₁, hnegd₁, hkei⟩

/-- Witness for C1: two runs with completely different normal equations
(`M`, `B`) and solver outputs but the same allocation content
`covAlloc = 4` everywhere agree on the error outputs, which are square
roots of the allocation entries. -/
theorem c1_error_outputs_read_unwritten_cov_witness :
    solveAndTranslate (fun q => q) (fun _ _ _ => some 0) 1 1 2
        (fun _ _ => 0) (fun _ => 0) (fun _ _ => some 4) =
      Except.ok ⟨[0], [4], some 0, 4⟩ ∧
    solveAndTranslate (fun q => q) (fun _ _ _ => some 5) 1 1 2
        (fun _ _ => 100) (fun _ => 7) (fun _ _ => some 4) =
      Except.ok ⟨[5], [4], some 5, 4⟩ ∧
    ([4] : List ℚ) = [4] ∧ (4 : ℚ) = 4 ∧
    (∀ i, i < 1 * 1 → ∃ c, (fun _ _ => some (4 : ℚ)) i i = some c ∧
      ¬c < 0 ∧ ([4] : List ℚ)[i]? = some ((fun q => q) c)) ∧
    (∃ c, (fun _ _ => some (4 : ℚ)) (2 - 1) (2 - 1) = some c ∧ ¬c < 0 ∧
      (4 : ℚ) = (fun q => q) c) := by
  have h1 : solveAndTranslate (fun q => q) (fun _ _ _ => some 0) 1 1 2
      (fun _ _ => 0) (fun _ => 0) (fun _ _ => some 4) =
      Except.ok ⟨[0], [4], some 0, 4⟩ := by rfl
  have h2 : solveAndTranslate (fun q => q) (fun _ _ _ => some 5) 1 1 2
      (fun _ _ => 100) (fun _ => 7) (fun _ _ => some 4) =
      Except.ok ⟨[5], [4], some 5, 4⟩ := by rfl
  have h := c1_error_outputs_read_unwritten_cov (fun q => q)
    (fun _ _ _ => some 0) (fun _ _ _ => some 5) (fun _ _ => 0)
    (fun _ _ => 100) (fun _ => 0) (fun _ => 7) (fun _ _ => some 4) 1 1 2
    ⟨[0], [4], some 0, 4⟩ ⟨[5], [4], some 5, 4⟩ h1 h2
  exact ⟨h1, h2, h.1, h.2.1, h.2.2.1, h.2.2.2⟩

end Diffim

namespace Diffim

/-- Claim C7, counterexample: two solver runs (2 kernel parameters plus
background, `kCols = 1`, `kRows = 2`, `nParameters = 3`) in which a
*different* parameter's covariance diagonal is negative — parameter 0 in
the first run, parameter 1 in the second, with the same offending value —
raise exactly the same error, so the raised error does not identify which
parameter (which index) failed. -/
theorem c7_counterexample :
    translateSolution (fun q => q) 1 2 3 (fun _ => some 0)
        (fun i j => if i = 0 ∧ j = 0 then some (-1) else some 1) =
      Except.error (FitError.uncertaintyNegative (-1)) ∧
    translateSolution (fun q => q) 1 2 3 (fun _ => some 0)
        (fun i j => if i = 1 ∧ j = 1 then some (-1) else some 1) =
      Except.error (FitError.uncertaintyNegative (-1)) ∧
    (fun (i j : ℕ) => if i = 0 ∧ j = 0 then some (-1 : ℚ) else some 1) 0 0 =
      some (-1) ∧
    (fun (i j : ℕ) => if i = 1 ∧ j = 1 then some (-1 : ℚ) else some 1) 0 0 =
      some 1 ∧
    (fun (i j : ℕ) => if i = 1 ∧ j = 1 then some (-1 : ℚ) else some 1) 1 1 =
      some (-1) := by
  refine ⟨by rfl, by rfl, by norm_num, by norm_num, by norm_num⟩

/-- Claim C7 as amended: a not-a-number or negative checked diagonal
covariance entry (one of the `n` kernel entries or the background entry)
raises a fatal fit error that identifies the kind of failure — solution
NaN, uncertainty NaN, or negative variance together with the offending
value — but not the parameter index: every error value faithfully reports
a failure actually present among the checked entries. -/
theorem c7_error_reports_kind_and_value (sqrtFn : ℚ → ℚ)
    (kCols kRows p : ℕ) (X : ℕ → Option ℚ) (Cov : ℕ → ℕ → Option ℚ) :
    (∀ v, translateSolution sqrtFn kCols kRows p X Cov =
        Except.error (FitError.uncertaintyNegative v) →
      v < 0 ∧ ((∃ i, i < kRows * kCols ∧ Cov i i = some v) ∨
        Cov (p - 1) (p - 1) = some v)) ∧
    (translateSolution sqrtFn kCols kRows p X Cov =
        Except.error FitError.solutionNan →
      ∃ i, i < kRows * kCols ∧ X i = none) ∧
    (translateSolution sqrtFn kCols kRows p X Cov =
        Except.error FitError.uncertaintyNan →
      (∃ i, i < kRows * kCols ∧ Cov i i = none) ∨
        Cov (p - 1) (p - 1) = none) := by
  refine ⟨?_, ?_, ?_⟩
  · intro v h
    rcases translateSolution_error sqrtFn kCols kRows p X Cov _ h with ht | hb
    · obtain ⟨i, hi, hce⟩ := translateEntries_error sqrtFn X Cov _ _ ht
      rcases checkEntry_error sqrtFn X Cov i _ hce with ⟨hk, _⟩ | ⟨hk, _⟩ |
        ⟨c, hk, hcov, hneg⟩
      · cases hk
      · cases hk
      · cases hk
        exact ⟨hneg, Or.inl ⟨i, hi, hcov⟩⟩
    · rcases backgroundStage_error sqrtFn X Cov p _ hb with ⟨hk, _⟩ |
        ⟨c, hk, hcov, hneg⟩
      · cases hk
      · cases hk
        exact ⟨hneg, Or.inr hcov⟩
  · intro h
    rcases translateSolution_error sqrtFn kCols kRows p X Cov _ h with ht | hb
    · obtain ⟨i, hi, hce⟩ := translateEntries_error sqrtFn X Cov _ _ ht
      rcases checkEntry_error sqrtFn X Cov i _ hce with ⟨_, hx⟩ | ⟨hk, _⟩ |
        ⟨c, hk, _, _⟩
      · exact ⟨i, hi, hx⟩
      · cases hk
      · cases hk
    · rcases backgroundStage_error sqrtFn X Cov p _ hb with ⟨hk, _⟩ |
        ⟨c, hk, _, _⟩
      · cases hk
      · cases hk
  · intro h
    rcases translateSolution_error sqrtFn kCols kRows p X Cov _ h with ht | hb
    · obtain ⟨i, hi, hce⟩ := translateEntries_error sqrtFn X Cov _ _ ht
      rcases checkEntry_error sqrtFn X Cov i _ hce with ⟨hk, _⟩ | ⟨_, hcov⟩ |
        ⟨c, hk, _, _⟩
      · cases hk
      · exact Or.inl ⟨i, hi, hcov⟩
      · cases hk
    · rcases backgroundStage_error sqrtFn X Cov p _ hb with ⟨_, hcov⟩ |
        ⟨c, hk, _, _⟩
      · exact Or.inr hcov
      · cases hk

/-- Witness for C7's amended theorem at the concrete run that fails with a
negative variance at parameter 0. -/
theorem c7_error_reports_kind_and_value_witness :
    translateSolution (fun q => q) 1 2 3 (fun _ => some 0)
        (fun i j => if i = 0 ∧ j = 0 then some (-1) else some 1) =
      Except.error (FitError.uncertaintyNegative (-1)) ∧
    ((-1 : ℚ) < 0 ∧ ((∃ i, i < 2 * 1 ∧
      (fun (i j : ℕ) => if i = 0 ∧ j = 0 then some (-1 : ℚ) else some 1) i i =
        some (-1)) ∨
      (fun (i j : ℕ) => if i = 0 ∧ j = 0 then some (-1 : ℚ) else some 1)
        (3 - 1) (3 - 1) = some (-1))) := by
  have hrun : translateSolution (fun q => q) 1 2 3 (fun _ => some 0)
      (fun i j => if i = 0 ∧ j = 0 then some (-1) else some 1) =
      Except.error (FitError.uncertaintyNegative (-1)) := by rfl
  exact ⟨hrun, (c7_error_reports_kind_and_value (fun q => q) 1 2 3
    (fun _ => some 0)
    (fun i j => if i = 0 ∧ j = 0 then some (-1) else some 1)).1 (-1) hrun⟩

/-- The indices at which the translation loop reads the GSL solution
vector and covariance matrix (lines 663-683): `X[idx]` and
`Cov[idx][idx]` for `idx = 0 .. kCols*kRows - 1`; a GSL read is in
bounds when the index is below the allocation size `nParameters`. -/
def kernelReadIndicesInBounds (kCols kRows nParameters : ℕ) : Prop :=
  ∀ idx, idx < kCols * kRows → idx < nParameters

/-- Modelled from the spec: a linear-combination kernel carries one scalar
coefficient per basis element (spec section 3, Kernel data model), so the
construction `LinearCombinationKernel(kernelInBasisList, kValues)` at
lines 684-687 is well-formed iff the coefficient count equals the basis
size. -/
def linearCombinationWellFormed (nBasis nCoeffs : ℕ) : Prop :=
  nCoeffs = nBasis

/-- Claim C9: with `n = |basis|` (solution and covariance have `n + 1`
entries), the translation loop's reads at indices
`0 .. kernelCols·kernelRows − 1` are all in bounds AND the construction
of the output `LinearCombinationKernel` from `kernelCols·kernelRows`
coefficients over the `n`-element basis is well-formed exactly when
`kernelCols·kernelRows = n`; and no check enforces this: the translation
succeeds on a mismatched shape (`kCols·kRows = 1` against a basis of
size 2). -/
theorem c9_shape_precondition (kCols kRows n : ℕ) :
    ((kernelReadIndicesInBounds kCols kRows (n + 1) ∧
      linearCombinationWellFormed n (kCols * kRows)) ↔ kCols * kRows = n) ∧
    translateSolution (fun q => q) 1 1 (2 + 1) (fun _ => some 0)
        (fun _ _ => some 0) =
      Except.ok ⟨[0], [0], some 0, 0⟩ := by
  refine ⟨⟨fun h => h.2, fun h => ⟨fun idx hidx => by omega, h⟩⟩, by rfl⟩

end Diffim

namespace Diffim

/-! ## Footprint selector: `getCollectionOfFootprintsForPsfMatching`
    (`ImageSubtract.cc` lines 313-405).

    The external detector, footprint growing, and the `FindSetBits`
    mask queries are collaborators; a candidate is modelled with the
    attributes the selector inspects after growing: its pixel count, the
    accumulated bad-mask bits of the grown footprint over each image, and
    the result of extracting the grown bounding box as a sub-image of both
    images (`Except.error` when the box is too close to an image edge,
    which the source catches). -/

structure FootprintCandidate where
  npix : ℕ
  badBitsToConvolve : ℕ
  badBitsToNotConvolve : ℕ
  extraction : Except String Unit

/-- The per-candidate filter of one detection pass (lines 358-396): skip
when `getNpix() < footprintDiffimNpixMin`; skip when the `FindSetBits`
functor reports set bits on either image; try the sub-image extraction of
both images and skip (`continue`) when it throws; otherwise accept. -/
def footprintPassesChecks (npixMin : ℕ) (c : FootprintCandidate) : Bool :=
  if c.npix < npixMin then false
  else if 0 < c.badBitsToConvolve then false
  else if 0 < c.badBitsToNotConvolve then false
  else
    match c.extraction with
    | Except.error _ => false
    | Except.ok _ => true

/-- One detection pass (lines 342-396): the accepted list is rebuilt from
scratch from the candidates the detector returned at the current
threshold, keeping exactly those passing all checks, in order. -/
def footprintPass (npixMin : ℕ) (cands : List FootprintCandidate) :
    List FootprintCandidate :=
  cands.filter (footprintPassesChecks npixMin)

/-- The adaptive-threshold loop (lines 340-399): while fewer clean
footprints than `minimumCleanFootprints` were accepted and the threshold
is above `minimumDetectionThreshold`, rerun the detection pass at the
current threshold and multiply the threshold by
`detectionThresholdScaling`; on exit return the list accepted in the last
executed pass (initially empty).  `fuel` bounds the number of passes (the
C++ loop's termination relies on floating-point underflow of the
threshold). -/
def selectorLoop (detect : ℚ → List FootprintCandidate) (npixMin : ℕ)
    (minimumCleanFootprints : ℕ) (detectionThresholdScaling
    minimumDetectionThreshold : ℚ) :
    ℕ → ℚ → List FootprintCandidate → List FootprintCandidate
  | 0, _, out => out
  | fuel + 1, footprintDetectionThreshold, out =>
    if out.length < minimumCleanFootprints ∧
        minimumDetectionThreshold < footprintDetectionThreshold then
      selectorLoop detect npixMin minimumCleanFootprints
        detectionThresholdScaling minimumDetectionThreshold fuel
        (footprintDetectionThreshold * detectionThresholdScaling)
        (footprintPass npixMin (detect footprintDetectionThreshold))
    else out

/-- `getCollectionOfFootprintsForPsfMatching`: run the loop from the
initial policy threshold with an empty accepted list; the return type is a
plain list — no error propagates to the caller. -/
def getCollectionOfFootprintsForPsfMatching
    (detect : ℚ → List FootprintCandidate) (npixMin : ℕ)
    (minimumCleanFootprints : ℕ) (detectionThresholdScaling
    minimumDetectionThreshold footprintDetectionThreshold : ℚ)
    (fuel : ℕ) : List FootprintCandidate :=
  selectorLoop detect npixMin minimumCleanFootprints
    detectionThresholdScaling minimumDetectionThreshold fuel
    footprintDetectionThreshold []

end Diffim

namespace Diffim

/-- Claim C8: the footprint selector never propagates an error to the
caller: a candidate whose grown-bounding-box sub-image extraction fails is
rejected by the checks and the pass continues — the pass over a candidate
list containing it equals the pass with it removed — and when the
threshold has reached the floor (is not above `minimumDetectionThreshold`)
while fewer than `minimumCleanFootprints` regions were accepted, the loop
returns the (possibly short or empty) list accepted in the last pass
rather than raising an error. -/
theorem c8_selector_error_handling :
    (∀ (npixMin : ℕ) (pre post : List FootprintCandidate)
      (c : FootprintCandidate) (e : String),
      c.extraction = Except.error e →
      footprintPassesChecks npixMin c = false ∧
      footprintPass npixMin (pre ++ c :: post) =
        footprintPass npixMin (pre ++ post)) ∧
    (∀ (detect : ℚ → List FootprintCandidate) (npixMin mc : ℕ)
      (scaling minThr thr : ℚ) (fuel : ℕ)
      (out : List FootprintCandidate), thr ≤ minThr →
      selectorLoop detect npixMin mc scaling minThr fuel thr out = out) := by
  constructor
  · intro npixMin pre post c e hext
    have hfail : footprintPassesChecks npixMin c = false := by
      unfold footprintPassesChecks
      rw [hext]
      by_cases h1 : c.npix < npixMin
      · rw [if_pos h1]
      · rw [if_neg h1]
        by_cases h2 : 0 < c.badBitsToConvolve
        · rw [if_pos h2]
        · rw [if_neg h2]
          by_cases h3 : 0 < c.badBitsToNotConvolve
          · rw [if_pos h3]
          · rw [if_neg h3]
    refine ⟨hfail, ?_⟩
    unfold footprintPass
    rw [List.filter_append, List.filter_append, List.filter_cons, hfail]
    simp
  · intro detect npixMin mc scaling minThr thr fuel out hthr
    cases fuel with
    | zero => rfl
    | succ fuel =>
      unfold selectorLoop
      rw [if_neg (fun h => absurd h.2 (not_lt.mpr hthr))]

/-- Witness for C8: a candidate whose extraction fails is dropped from a
concrete pass, and a concrete exhausted loop returns its input list. -/
theorem c8_selector_error_handling_witness :
    ((⟨5, 0, 0, Except.error "edge"⟩ : FootprintCandidate).extraction =
      Except.error "edge" ∧
     footprintPassesChecks 1 ⟨5, 0, 0, Except.error "edge"⟩ = false ∧
     footprintPass 1 ([⟨5, 0, 0, Except.ok ()⟩] ++
        ⟨5, 0, 0, Except.error "edge"⟩ :: [⟨7, 0, 0, Except.ok ()⟩]) =
       footprintPass 1 ([⟨5, 0, 0, Except.ok ()⟩] ++
        [⟨7, 0, 0, Except.ok ()⟩])) ∧
    ((1 : ℚ) ≤ 2 ∧
     selectorLoop (fun _ => []) 1 3 (1/2) 2 4 1
        [⟨5, 0, 0, Except.ok ()⟩] = [⟨5, 0, 0, Except.ok ()⟩]) := by
  have h := c8_selector_error_handling
  refine ⟨⟨rfl, ?_, ?_⟩, ⟨by norm_num, ?_⟩⟩
  · exact (h.1 1 [⟨5, 0, 0, Except.ok ()⟩] [⟨7, 0, 0, Except.ok ()⟩]
      ⟨5, 0, 0, Except.error "edge"⟩ "edge" rfl).1
  · exact (h.1 1 [⟨5, 0, 0, Except.ok ()⟩] [⟨7, 0, 0, Except.ok ()⟩]
      ⟨5, 0, 0, Except.error "edge"⟩ "edge" rfl).2
  · exact h.2 (fun _ => []) 1 3 (1/2) 2 1 4
      [⟨5, 0, 0, Except.ok ()⟩] (by norm_num)

end Diffim
